import Mathlib

/-!
Shallow embedding of the EducaNexo360 caching subsystem: the node-cache
backed store used by src/cache/simpleCache.ts (key builder, read-through
helpers of mensaje.service.ts and dashboard.service.ts, prefix
invalidation, stats reporting) and the hand-rolled Map based
DashboardCache of src/cache/dashboardCache.ts.

Values flowing through the caches are JavaScript values; what the source
tests on a cache read is the truthiness of the returned value, so values
are modelled by a small JavaScript value type with an explicit truthiness
predicate.  Times are natural numbers: milliseconds for DashboardCache
(the source compares now - timestamp > ttl * 1000), seconds for the
node-cache model (whose TTLs are given in seconds).

The node-cache library itself is an external dependency whose code is not
part of the repository; its store operations are modelled from the spec
(TTL store with lazy expiry, capacity eviction, hit/miss counters) and
are marked as such below.  Everything else is translated directly from
the repository sources.
-/

namespace EducaCache

/-- JavaScript values as stored in the caches.  `vObj` stands for any
non-primitive value (object or array), which is always truthy; the `id`
field only distinguishes different objects. -/
inductive JsValue where
  | vUndefined
  | vNull
  | vBool (b : Bool)
  | vNum (n : Int)
  | vStr (s : String)
  | vObj (id : Nat)
deriving DecidableEq

/-- JavaScript truthiness of a value, as tested by `if (cached)` in the
source (null, undefined, false, 0 and the empty string are falsy). -/
def truthy : JsValue → Bool
  | .vUndefined => false
  | .vNull => false
  | .vBool b => b
  | .vNum n => n != 0
  | .vStr s => s != ""
  | .vObj _ => true

/-- Lookup in an association list keyed by strings (models reading a JS
Map or object property). -/
def lookupA {α : Type} : List (String × α) → String → Option α
  | [], _ => none
  | e :: rest, key => if e.fst = key then some e.snd else lookupA rest key

/-- Remove every binding of `key` (models Map.delete on a map with unique
keys). -/
def eraseA {α : Type} : List (String × α) → String → List (String × α)
  | [], _ => []
  | e :: rest, key => if e.fst = key then eraseA rest key else e :: eraseA rest key

/-- Replace the binding of `key` in place, keeping its position; no-op if
the key is absent. -/
def replaceA {α : Type} : List (String × α) → String → α → List (String × α)
  | [], _, _ => []
  | e :: rest, key, v => if e.fst = key then (key, v) :: rest else e :: replaceA rest key v

/-- Insert or update a binding, preserving insertion order on update and
appending when new (models Map.set). -/
def setA {α : Type} : List (String × α) → String → α → List (String × α)
  | [], key, v => [(key, v)]
  | e :: rest, key, v => if e.fst = key then (key, v) :: rest else e :: setA rest key v

/-- Boolean membership of a string in a list of strings. -/
def memS : List String → String → Bool
  | [], _ => false
  | y :: ys, x => if y = x then true else memS ys x

/-! ## DashboardCache (src/cache/dashboardCache.ts) -/

/-- One entry of DashboardCache's private Map: `{ data, timestamp, ttl }`,
with `timestamp` in milliseconds and `ttl` in seconds, as in the source. -/
structure DashItem where
  data : JsValue
  timestamp : Nat
  ttl : Nat
deriving DecidableEq

/-- DashboardCache.get: absent key gives null; an entry with
`now - timestamp > ttl * 1000` is deleted and reported null; otherwise
the stored data is returned.  The second component is the cache after
the call. -/
def dashGet (c : List (String × DashItem)) (key : String) (now : Nat) :
    Option JsValue × List (String × DashItem) :=
  match lookupA c key with
  | none => (none, c)
  | some item =>
    if item.ttl * 1000 < now - item.timestamp then (none, eraseA c key)
    else (some item.data, c)

/-- DashboardCache.set: stores `{ data, timestamp: Date.now(), ttl }`. -/
def dashSet (c : List (String × DashItem)) (key : String) (data : JsValue)
    (ttlSeconds : Nat) (now : Nat) : List (String × DashItem) :=
  setA c key { data := data, timestamp := now, ttl := ttlSeconds }

/-! ## The node-cache backed store (src/cache/simpleCache.ts) -/

/-- An entry of the node-cache store: value, insertion time (seconds) and
per-entry TTL (seconds). -/
structure CacheEntry where
  value : JsValue
  storedAt : Nat
  ttl : Nat
deriving DecidableEq

/-- The node-cache instance of simpleCache.ts: entries in insertion
order, the configured `maxKeys` (500 in the source) and the cumulative
hit/miss counters exposed by `getStats()`. -/
structure Store where
  entries : List (String × CacheEntry)
  maxKeys : Nat
  hits : Nat
  misses : Nat
deriving DecidableEq

/-- A store with no entries and zeroed counters, as right after
`new NodeCache({...})`. -/
def emptyStore (maxKeys : Nat) : Store :=
  { entries := [], maxKeys := maxKeys, hits := 0, misses := 0 }

/-- Modelled from the spec: node-cache's `get` (the library is not part
of the repository sources).  Lazy TTL expiry with the strict boundary
`now - storedAt > ttlSeconds`; an expired entry is physically deleted on
read; gets bump the cumulative hit/miss counters. -/
def storeGet (s : Store) (key : String) (now : Nat) : Option JsValue × Store :=
  match lookupA s.entries key with
  | none => (none, { s with misses := s.misses + 1 })
  | some e =>
    if e.ttl < now - e.storedAt then
      (none, { s with entries := eraseA s.entries key, misses := s.misses + 1 })
    else
      (some e.value, { s with hits := s.hits + 1 })

/-- Modelled from the spec: node-cache's `set` under the configured
`maxKeys` capacity (the library is not part of the repository sources).
An existing key is replaced in place; a new key inserted at capacity
first evicts the least-recently-inserted entry; capacity exhaustion is
handled by this eviction and is never an error. -/
def storeSet (s : Store) (key : String) (v : JsValue) (ttl : Nat) (now : Nat) : Store :=
  if (lookupA s.entries key).isSome then
    { s with entries := replaceA s.entries key { value := v, storedAt := now, ttl := ttl } }
  else
    let pruned := if s.maxKeys ≤ s.entries.length then s.entries.drop 1 else s.entries
    { s with entries := pruned ++ [(key, { value := v, storedAt := now, ttl := ttl })] }

/-- Modelled from the spec: node-cache's `del` (the library is not part
of the repository sources). -/
def storeDel (s : Store) (key : String) : Store :=
  { s with entries := eraseA s.entries key }

/-- Modelled from the spec: node-cache's `keys()` (the library is not
part of the repository sources); it lists live, non-expired keys only. -/
def storeKeys (s : Store) (now : Nat) : List String :=
  (s.entries.filter (fun e => decide (now - e.snd.storedAt ≤ e.snd.ttl))).map (fun e => e.fst)

/-! ## Key builder and key parsing -/

/-- JavaScript `Array.prototype.join` with separator `_`. -/
def joinUnderscore : List String → String
  | [] => ""
  | [p] => p
  | p :: ps => p ++ "_" ++ joinUnderscore ps

/-- `createCacheKey` of mensaje.service.ts and dashboard.service.ts:
the template string `type_params.join(sep)` with underscore separator. -/
def createCacheKey (typeName : String) (params : List String) : String :=
  typeName ++ "_" ++ joinUnderscore params

/-- Character-list version of JavaScript String.startsWith. -/
def listStartsWith : List Char → List Char → Bool
  | _, [] => true
  | [], _ :: _ => false
  | c :: cs, d :: ds => if c = d then listStartsWith cs ds else false

/-- JavaScript `key.startsWith(pat)` as used by invalidateCache. -/
def strStartsWith (s pat : String) : Bool := listStartsWith s.data pat.data

/-- Characters of a string before the first underscore. -/
def firstSegChars : List Char → List Char
  | [] => []
  | c :: cs => if c = '_' then [] else c :: firstSegChars cs

/-- The stats reporter's per-key type extraction: `key.split(sep)[0]`,
the first underscore-delimited segment of the key. -/
def firstSegment (key : String) : String := String.mk (firstSegChars key.data)

/-- The `cacheConfig` table of simpleCache.ts: type name, TTL in seconds
and human-readable description. -/
def cacheConfig : List (String × Nat × String) := [
  ("dashboard", 180, "Dashboard - 3 min"),
  ("mensajes", 120, "Lista mensajes - 2 min"),
  ("anuncios", 300, "Anuncios - 5 min"),
  ("notificaciones", 60, "Notificaciones - 1 min"),
  ("calificaciones", 240, "Calificaciones - 4 min"),
  ("cursos", 600, "Lista cursos - 10 min"),
  ("usuarios", 900, "Lista usuarios - 15 min"),
  ("dashboard_rol", 300, "Resumen por rol - 5 min"),
  ("dashboard_completo", 180, "Dashboard completo - 3 min"),
  ("eventos_hoy", 600, "Eventos del dia - 10 min"),
  ("metricas_avanzadas", 900, "Metricas avanzadas - 15 min"),
  ("promedio_periodo", 300, "Promedio periodo - 5 min"),
  ("promedio_asignatura", 600, "Promedio asignatura - 10 min"),
  ("estadisticas_grupo", 180, "Estadisticas grupo - 3 min"),
  ("destinatarios", 120, "Posibles destinatarios - 2 min"),
  ("cursos_destinatarios", 600, "Cursos para mensajes - 10 min"),
  ("acudientes", 300, "Acudientes estudiante - 5 min"),
  ("lista_mensajes", 120, "Lista mensajes - 2 min"),
  ("asistencia", 240, "Asistencia - 4 min"),
  ("escuela", 1800, "Info escuela - 30 min"),
  ("logros", 900, "Logros - 15 min")]

/-- TTL resolution of cacheMiddleware: the configured policy for the
type, or the default `{ ttl: 300 }` when the type is unknown. -/
def configTtl (cacheType : String) : Nat :=
  match lookupA cacheConfig cacheType with
  | some c => c.fst
  | none => 300

/-! ## Read-through helper and middleware lookup -/

/-- The source's hit test on the result of `cache.get`: a value came back
and it is truthy (`if (cached)`). -/
def jsHit : Option JsValue → Option JsValue
  | some v => if truthy v then some v else none
  | none => none

/-- Result of one `getOrSetCache` call: the value or propagated error,
the store afterwards, and whether the fetch function was invoked. -/
structure CacheCallResult (ε : Type) where
  result : Except ε JsValue
  store : Store
  computeInvoked : Bool

/-- `getOrSetCache` as written identically in mensaje.service.ts and
dashboard.service.ts: return the cached value if `cache.get` gives a
truthy result; otherwise run the fetch function and, only on success,
`cache.set` the result under the key before returning it.  A rejection
of the fetch function propagates unchanged. -/
def getOrSetCache {ε : Type} (s : Store) (cacheKey : String) (ttl : Nat) (now : Nat)
    (fetchResult : Except ε JsValue) : CacheCallResult ε :=
  let g := storeGet s cacheKey now
  match jsHit g.fst with
  | some v => { result := Except.ok v, store := g.snd, computeInvoked := false }
  | none =>
    match fetchResult with
    | Except.error e => { result := Except.error e, store := g.snd, computeInvoked := true }
    | Except.ok r =>
      { result := Except.ok r, store := storeSet g.snd cacheKey r ttl now, computeInvoked := true }

/-- The cache lookup of `cacheMiddleware` in simpleCache.ts: it serves
from cache exactly when `cache.get` returns a truthy value, otherwise it
falls through to the handler. -/
def cacheMiddlewareLookup (s : Store) (cacheKey : String) (now : Nat) :
    Option JsValue × Store :=
  let g := storeGet s cacheKey now
  (jsHit g.fst, g.snd)

/-! ## Invalidation (simpleCache.ts) -/

/-- `invalidateCache` of simpleCache.ts: build the pattern
`cacheType_userId_escuelaId`, collect every live key starting with it,
and delete each one. -/
def invalidateCache (cacheType : String) (userId : String) (escuelaId : String)
    (s : Store) (now : Nat) : Store :=
  let userKey := userId ++ "_" ++ escuelaId
  let pat := cacheType ++ "_" ++ userKey
  let keys := (storeKeys s now).filter (fun k => strStartsWith k pat)
  keys.foldl (fun st k => storeDel st k) s

/-- `invalidateRelatedCache` of simpleCache.ts: invalidate the primary
type and then each related type, all scoped to the same user/school. -/
def invalidateRelatedCache (primaryType : String) (userId : String) (escuelaId : String)
    (relatedTypes : List String) (s : Store) (now : Nat) : Store :=
  (primaryType :: relatedTypes).foldl (fun st t => invalidateCache t userId escuelaId st now) s

/-! ## Stats reporting (simpleCache.ts) -/

/-- JavaScript number division restricted to the nonnegative operands
occurring in getCacheStats: `jsDiv a b` is `none` exactly when the
division has a zero denominator (for `0 / 0` JavaScript yields NaN; a
positive numerator with zero denominator cannot occur here since the
denominator is the sum of the nonnegative operands). -/
def jsDiv (a b : ℚ) : Option ℚ := if b = 0 then none else some (a / b)

/-- One step of the `typeStats[type] = (typeStats[type] || 0) + 1`
accumulation. -/
def bumpCount (m : List (String × Nat)) (t : String) : List (String × Nat) :=
  match lookupA m t with
  | some n => replaceA m t (n + 1)
  | none => m ++ [(t, 1)]

/-- The per-type key count of getCacheStats, grouping live keys by their
first underscore-delimited segment. -/
def typeBreakdownOf (keys : List String) : List (String × Nat) :=
  keys.foldl (fun m k => bumpCount m (firstSegment k)) []

/-- The record returned by getCacheStats.  `hitRate` is an optional
rational: `none` models the NaN produced by JavaScript when both
counters are zero. -/
structure StatsReport where
  keys : Nat
  hits : Nat
  misses : Nat
  hitRate : Option ℚ
  typeBreakdown : List (String × Nat)
  configuredTypes : List String
deriving DecidableEq

/-- `getCacheStats` of simpleCache.ts:
`(stats.hits / (stats.hits + stats.misses)) * 100` plus the per-type
breakdown of live keys and the list of configured type names. -/
def getCacheStats (s : Store) (now : Nat) : StatsReport :=
  let allKeys := storeKeys s now
  { keys := allKeys.length
    hits := s.hits
    misses := s.misses
    hitRate := Option.map (fun r => r * 100) (jsDiv (s.hits : ℚ) ((s.hits : ℚ) + (s.misses : ℚ)))
    typeBreakdown := typeBreakdownOf allKeys
    configuredTypes := cacheConfig.map (fun c => c.fst) }

/-! ## Capacity: sequences of set operations -/

/-- One `cache.set(key, value, ttl)` call performed at time `now`. -/
structure SetOp where
  key : String
  value : JsValue
  ttl : Nat
  now : Nat

/-- Apply a sequence of set operations to a store. -/
def applySets (ops : List SetOp) (s : Store) : Store :=
  ops.foldl (fun st op => storeSet st op.key op.value op.ttl op.now) s

/-! ## Helper lemmas -/

theorem lookupA_eraseA_self {α : Type} (l : List (String × α)) (key : String) :
    lookupA (eraseA l key) key = none := by
  induction l with
  | nil => rfl
  | cons e rest ih =>
    by_cases h : e.fst = key
    · simp [eraseA, h, ih]
    · simp [eraseA, h, lookupA, ih]

/-- A miss of the source's truthiness hit test is stable: after the
lookup's own store update the same key still misses, at any later time. -/
theorem jsHit_miss_stable (s : Store) (k : String) (now now2 : Nat)
    (h : jsHit (storeGet s k now).fst = none) :
    jsHit (storeGet ((storeGet s k now).snd) k now2).fst = none := by
  cases hl : lookupA s.entries k with
  | none =>
    simp [storeGet, hl, jsHit]
  | some e =>
    by_cases hexp : e.ttl < now - e.storedAt
    · simp [storeGet, hl, hexp, lookupA_eraseA_self, jsHit]
    · have hfalsy : truthy e.value = false := by
        cases hcc : truthy e.value
        · rfl
        · exfalso
          simp [storeGet, hl, hexp, jsHit, hcc] at h
      by_cases hexp2 : e.ttl < now2 - e.storedAt
      · simp [storeGet, hl, hexp, hexp2, jsHit]
      · simp [storeGet, hl, hexp, hexp2, jsHit, hfalsy]

/-! ## C1: failed computations are not memoized -/

/-- C1: when the read-through helper `getOrSetCache` misses and the
compute function fails, the error is propagated unchanged to the caller,
the resulting store is exactly the post-lookup store (so nothing was
cached under the key), the compute function was invoked, and an
immediately following call for the same key invokes its compute function
again. -/
theorem getOrSetCache_failure_not_cached {ε : Type} (s : Store) (k : String)
    (ttl now ttl2 now2 : Nat) (e : ε) (fetch2 : Except ε JsValue)
    (hmiss : jsHit (storeGet s k now).fst = none) :
    (getOrSetCache s k ttl now (Except.error e)).result = Except.error e ∧
    (getOrSetCache s k ttl now (Except.error e)).store = (storeGet s k now).snd ∧
    (getOrSetCache s k ttl now (Except.error e)).computeInvoked = true ∧
    (getOrSetCache ((getOrSetCache s k ttl now (Except.error e)).store) k ttl2 now2
      fetch2).computeInvoked = true := by
  have hstep : getOrSetCache s k ttl now (Except.error e) =
      { result := Except.error e, store := (storeGet s k now).snd, computeInvoked := true } := by
    simp [getOrSetCache, hmiss]
  refine ⟨by rw [hstep], by rw [hstep], by rw [hstep], ?_⟩
  rw [hstep]
  have h2 := jsHit_miss_stable s k now now2 hmiss
  cases fetch2 <;> simp [getOrSetCache, h2]

/-- Witness for C1 at a concrete empty store and a concrete error. -/
theorem getOrSetCache_failure_not_cached_witness :
    jsHit (storeGet (emptyStore 500) ("k") 0).fst = none ∧
    (getOrSetCache (emptyStore 500) ("k") 60 0 (Except.error ("boom"))).result =
      Except.error ("boom") ∧
    (getOrSetCache ((getOrSetCache (emptyStore 500) ("k") 60 0
      (Except.error ("boom"))).store) ("k") 60 0
      (Except.ok (JsValue.vNum 1) : Except String JsValue)).computeInvoked = true := by
  have h := getOrSetCache_failure_not_cached (emptyStore 500) ("k") 60 0 60 0 ("boom")
      (Except.ok (JsValue.vNum 1) : Except String JsValue) (by decide)
  exact ⟨by decide, h.1, h.2.2.2⟩

/-! ## C2: DashboardCache TTL semantics -/

/-- C2: for every stored DashboardCache entry, `get` returns the stored
data and leaves the cache unchanged while `now - timestamp` has not
strictly exceeded `ttl * 1000` milliseconds (the boundary instant is
still valid); past that boundary `get` returns absent and physically
removes the entry. -/
theorem dashboardCache_get_ttl (c : List (String × DashItem)) (k : String)
    (item : DashItem) (now : Nat) (hfound : lookupA c k = some item) :
    (now - item.timestamp ≤ item.ttl * 1000 → dashGet c k now = (some item.data, c)) ∧
    (item.ttl * 1000 < now - item.timestamp →
      dashGet c k now = (none, eraseA c k) ∧ lookupA (eraseA c k) k = none) := by
  constructor
  · intro h
    have h' : ¬ item.ttl * 1000 < now - item.timestamp := Nat.not_lt.mpr h
    simp [dashGet, hfound, h']
  · intro h
    simp [dashGet, hfound, h, lookupA_eraseA_self]

/-- The DashboardCache contents used by the C2 witness. -/
def dashExample : List (String × DashItem) :=
  [("k", { data := JsValue.vStr ("v"), timestamp := 0, ttl := 5 })]

/-- Witness for C2: a 5-second entry stored at 0 is served at the exact
boundary 5000 ms and discarded at 5001 ms. -/
theorem dashboardCache_get_ttl_witness :
    dashGet dashExample ("k") 5000 = (some (JsValue.vStr ("v")), dashExample) ∧
    dashGet dashExample ("k") 5001 = (none, []) := by
  constructor
  · exact (dashboardCache_get_ttl dashExample ("k")
      { data := JsValue.vStr ("v"), timestamp := 0, ttl := 5 } 5000 (by decide)).1 (by decide)
  · exact (((dashboardCache_get_ttl dashExample ("k")
      { data := JsValue.vStr ("v"), timestamp := 0, ttl := 5 } 5001 (by decide)).2
      (by decide)).1).trans (by decide)

/-! ## C9: zero TTL entries -/

/-- C9 counterexample: an entry stored in DashboardCache with
ttlSeconds = 0 is still served by a `get` in the very same instant
(now = storedAt), because the source's expiry test is strictly
greater-than; the claim that such a read "including in the same
instant" returns absent is false. -/
theorem zeroTtl_same_instant_hit :
    (dashGet (dashSet [] ("k") (JsValue.vStr ("v")) 0 0) ("k") 0).fst =
      some (JsValue.vStr ("v")) ∧
    (dashGet (dashSet [] ("k") (JsValue.vStr ("v")) 0 0) ("k") 0).fst ≠ none := by
  exact ⟨by decide, by decide⟩

/-- C9 (amended): an entry with ttlSeconds = 0 is expired on every read
strictly after the instant of the store (now > storedAt): `get` returns
absent and physically removes the entry; only a read in the exact same
instant still returns the value. -/
theorem zeroTtl_expired_after_instant (c : List (String × DashItem)) (k : String)
    (item : DashItem) (now : Nat) (hfound : lookupA c k = some item)
    (hz : item.ttl = 0) (hafter : item.timestamp < now) :
    dashGet c k now = (none, eraseA c k) := by
  have h : item.ttl * 1000 < now - item.timestamp := by
    rw [hz]
    simpa using Nat.sub_pos_of_lt hafter
  simp [dashGet, hfound, h]

/-- Witness for the amended C9 at a concrete one-entry cache. -/
theorem zeroTtl_expired_after_instant_witness :
    dashGet [(("k0"), { data := JsValue.vNum 7, timestamp := 0, ttl := 0 })] ("k0") 1 =
      (none, []) := by
  exact (zeroTtl_expired_after_instant
      [(("k0"), { data := JsValue.vNum 7, timestamp := 0, ttl := 0 })] ("k0")
      { data := JsValue.vNum 7, timestamp := 0, ttl := 0 } 1 (by decide) (by decide)
      (by decide)).trans (by decide)

/-! ## C10: falsy cached values are treated as misses -/

/-- C10: a live, unexpired entry whose stored value is falsy is treated
as a miss because presence is tested by truthiness: `getOrSetCache`
invokes the compute function again and the cache middleware falls
through to the handler, while the entry is still physically present in
the store after the lookup. -/
theorem falsy_cached_value_is_miss {ε : Type} (s : Store) (k : String)
    (item : CacheEntry) (now ttl : Nat) (fetch : Except ε JsValue)
    (hfound : lookupA s.entries k = some item)
    (hfalsy : truthy item.value = false)
    (hlive : now - item.storedAt ≤ item.ttl) :
    (getOrSetCache s k ttl now fetch).computeInvoked = true ∧
    (cacheMiddlewareLookup s k now).fst = none ∧
    lookupA ((cacheMiddlewareLookup s k now).snd).entries k = some item := by
  have hexp : ¬ item.ttl < now - item.storedAt := Nat.not_lt.mpr hlive
  have hget : storeGet s k now = (some item.value, { s with hits := s.hits + 1 }) := by
    simp [storeGet, hfound, hexp]
  refine ⟨?_, ?_, ?_⟩
  · cases fetch <;> simp [getOrSetCache, hget, jsHit, hfalsy]
  · simp [cacheMiddlewareLookup, hget, jsHit, hfalsy]
  · simp [cacheMiddlewareLookup, hget, hfound]

/-- The store holding a live falsy value used by the C10 witness. -/
def falsyStore : Store :=
  { entries := [(("k"), { value := JsValue.vNum 0, storedAt := 0, ttl := 300 })],
    maxKeys := 500, hits := 0, misses := 0 }

/-- Witness for C10: a cached 0 is never served and the compute function
runs again. -/
theorem falsy_cached_value_is_miss_witness :
    truthy (JsValue.vNum 0) = false ∧
    (getOrSetCache falsyStore ("k") 60 0
      (Except.ok (JsValue.vNum 7) : Except String JsValue)).computeInvoked = true ∧
    (cacheMiddlewareLookup falsyStore ("k") 0).fst = none := by
  have h := falsy_cached_value_is_miss falsyStore ("k")
      { value := JsValue.vNum 0, storedAt := 0, ttl := 300 } 0 60
      (Except.ok (JsValue.vNum 7) : Except String JsValue) (by decide) (by decide) (by decide)
  exact ⟨by decide, h.1, h.2.1⟩

/-! ## C4: capacity bound -/

theorem replaceA_length {α : Type} (l : List (String × α)) (key : String) (v : α) :
    (replaceA l key v).length = l.length := by
  induction l with
  | nil => rfl
  | cons e rest ih =>
    by_cases h : e.fst = key
    · simp [replaceA, h]
    · simp [replaceA, h, ih]

theorem storeSet_maxKeys (s : Store) (k : String) (v : JsValue) (ttl now : Nat) :
    (storeSet s k v ttl now).maxKeys = s.maxKeys := by
  by_cases h : (lookupA s.entries k).isSome <;> simp [storeSet, h]

theorem storeSet_length_le (s : Store) (k : String) (v : JsValue) (ttl now : Nat)
    (h0 : 0 < s.maxKeys) (h : s.entries.length ≤ s.maxKeys) :
    (storeSet s k v ttl now).entries.length ≤ s.maxKeys := by
  by_cases hk : (lookupA s.entries k).isSome
  · simp [storeSet, hk, replaceA_length, h]
  · by_cases hcap : s.maxKeys ≤ s.entries.length
    · simp [storeSet, hk, hcap, List.length_append, List.length_drop]
      omega
    · simp [storeSet, hk, hcap, List.length_append]
      omega

theorem applySets_length_le (ops : List SetOp) :
    ∀ s : Store, 0 < s.maxKeys → s.entries.length ≤ s.maxKeys →
      (applySets ops s).entries.length ≤ s.maxKeys := by
  induction ops with
  | nil =>
    intro s h0 h
    simpa [applySets] using h
  | cons op rest ih =>
    intro s h0 h
    have hm := storeSet_maxKeys s op.key op.value op.ttl op.now
    have h1 := storeSet_length_le s op.key op.value op.ttl op.now h0 h
    have h2 := ih (storeSet s op.key op.value op.ttl op.now)
      (by rw [hm]; exact h0) (by rw [hm]; exact h1)
    rw [hm] at h2
    simpa [applySets] using h2

theorem lookupA_none_drop {α : Type} (l : List (String × α)) (k : String)
    (h : lookupA l k = none) : lookupA (l.drop 1) k = none := by
  cases l with
  | nil => rfl
  | cons e rest =>
    by_cases he : e.fst = k
    · simp [lookupA, he] at h
    · simp [lookupA, he] at h
      simpa using h

theorem lookupA_append_self {α : Type} (l : List (String × α)) (k : String) (v : α)
    (h : lookupA l k = none) : lookupA (l ++ [(k, v)]) k = some v := by
  induction l with
  | nil => simp [lookupA]
  | cons e rest ih =>
    by_cases he : e.fst = k
    · simp [lookupA, he] at h
    · simp only [lookupA, he, List.cons_append, if_neg he] at h ⊢
      exact ih h

/-- C4: under any sequence of set operations starting from the empty
500-entry store the store never holds more than 500 live entries, and a
set of a new key while the store is at capacity evicts an existing entry
before inserting: the size stays at the maximum while the new key is now
present.  `storeSet` is a total function, so capacity exhaustion is
handled internally and never surfaced as an error. -/
theorem cache_capacity_bound :
    (∀ ops : List SetOp, (applySets ops (emptyStore 500)).entries.length ≤ 500) ∧
    (∀ (s : Store) (k : String) (v : JsValue) (ttl now : Nat),
      0 < s.maxKeys → s.entries.length = s.maxKeys → lookupA s.entries k = none →
      (storeSet s k v ttl now).entries.length = s.maxKeys ∧
      lookupA (storeSet s k v ttl now).entries k =
        some { value := v, storedAt := now, ttl := ttl }) := by
  constructor
  · intro ops
    exact applySets_length_le ops (emptyStore 500) (by decide) (by decide)
  · intro s k v ttl now h0 hlen hnew
    have hk : (lookupA s.entries k).isSome = false := by simp [hnew]
    have hcap : s.maxKeys ≤ s.entries.length := le_of_eq hlen.symm
    constructor
    · simp [storeSet, hk, hcap, List.length_append, List.length_drop]
      omega
    · simp only [storeSet, hk, Bool.false_eq_true, if_neg, if_pos hcap]
      exact lookupA_append_self _ _ _ (lookupA_none_drop _ _ hnew)

/-- The one-slot store at capacity used by the C4 witness. -/
def capStore : Store :=
  { entries := [(("a"), { value := JsValue.vNum 1, storedAt := 0, ttl := 60 })],
    maxKeys := 1, hits := 0, misses := 0 }

/-- Witness for C4: a concrete set sequence respects the bound, and a
new key set on a full store evicts rather than failing or growing. -/
theorem cache_capacity_bound_witness :
    (applySets [{ key := ("a"), value := JsValue.vNum 1, ttl := 60, now := 0 }]
      (emptyStore 500)).entries.length ≤ 500 ∧
    (storeSet capStore ("b") (JsValue.vNum 2) 60 0).entries.length = 1 ∧
    lookupA (storeSet capStore ("b") (JsValue.vNum 2) 60 0).entries ("b") =
      some { value := JsValue.vNum 2, storedAt := 0, ttl := 60 } := by
  have h2 := cache_capacity_bound.2 capStore ("b") (JsValue.vNum 2) 60 0
    (by decide) (by decide) (by decide)
  exact ⟨cache_capacity_bound.1 _, h2.1, h2.2⟩

/-! ## C3: prefix invalidation -/

theorem eraseA_eq_filter {α : Type} (l : List (String × α)) (k : String) :
    eraseA l k = l.filter (fun e => !(decide (e.fst = k))) := by
  induction l with
  | nil => rfl
  | cons e rest ih =>
    by_cases h : e.fst = k
    · simp [eraseA, h, ih, List.filter_cons]
    · simp [eraseA, h, ih, List.filter_cons]

theorem foldl_storeDel_entries (ks : List String) :
    ∀ s : Store, (ks.foldl (fun st k => storeDel st k) s).entries =
      ks.foldl (fun l k => eraseA l k) s.entries := by
  induction ks with
  | nil => intro s; rfl
  | cons k rest ih =>
    intro s
    simp only [List.foldl_cons]
    rw [ih (storeDel s k)]
    simp [storeDel]

theorem foldl_eraseA_eq_filter {α : Type} (ks : List String) :
    ∀ l : List (String × α), ks.foldl (fun acc k => eraseA acc k) l =
      l.filter (fun e => !(memS ks e.fst)) := by
  induction ks with
  | nil =>
    intro l
    simp [memS, List.filter_true]
  | cons k rest ih =>
    intro l
    simp only [List.foldl_cons]
    rw [ih (eraseA l k), eraseA_eq_filter, List.filter_filter]
    apply List.filter_congr
    intro e _
    by_cases h : k = e.fst
    · simp [memS, h]
    · have h' : ¬ e.fst = k := fun hc => h hc.symm
      simp [memS, h, h']

theorem storeKeys_all_live (s : Store) (now : Nat)
    (hlive : ∀ e ∈ s.entries, now - e.snd.storedAt ≤ e.snd.ttl) :
    storeKeys s now = s.entries.map (fun e => e.fst) := by
  unfold storeKeys
  rw [List.filter_eq_self.mpr ?live]
  case live =>
    intro e he
    simpa using hlive e he

theorem memS_filter (l : List String) (p : String → Bool) (x : String) :
    memS (l.filter p) x = (memS l x && p x) := by
  induction l with
  | nil => simp [memS]
  | cons y ys ih =>
    by_cases hy : p y = true
    · by_cases hx : y = x
      · subst hx
        simp [List.filter_cons, hy, memS]
      · simp [List.filter_cons, hy, memS, hx, ih]
    · have hy' : p y = false := by
        cases hpy : p y
        · rfl
        · exact absurd hpy hy
      by_cases hx : y = x
      · subst hx
        simp [List.filter_cons, hy', memS, ih, hy]
      · simp [List.filter_cons, hy', memS, hx, ih]

theorem memS_map_fst {α : Type} (l : List (String × α)) (e : String × α) (he : e ∈ l) :
    memS (l.map (fun x => x.fst)) e.fst = true := by
  induction l with
  | nil => cases he
  | cons y ys ih =>
    by_cases h : y.fst = e.fst
    · simp [memS, h]
    · rcases List.mem_cons.mp he with he' | he'
      · exact absurd (he' ▸ rfl) h
      · simp [memS, h, ih he']

theorem invalidateCache_eq (t u esc : String) (s : Store) (now : Nat)
    (hlive : ∀ e ∈ s.entries, now - e.snd.storedAt ≤ e.snd.ttl) :
    (invalidateCache t u esc s now).entries =
      s.entries.filter (fun e => !(strStartsWith e.fst (t ++ "_" ++ (u ++ "_" ++ esc)))) := by
  simp only [invalidateCache]
  rw [foldl_storeDel_entries, foldl_eraseA_eq_filter, storeKeys_all_live s now hlive]
  apply List.filter_congr
  intro e he
  rw [memS_filter, memS_map_fst s.entries e he]
  simp

theorem invalidate_foldl_eq (u esc : String) (types : List String) :
    ∀ (s : Store) (now : Nat), (∀ e ∈ s.entries, now - e.snd.storedAt ≤ e.snd.ttl) →
      (types.foldl (fun st t => invalidateCache t u esc st now) s).entries =
        s.entries.filter (fun e => !(types.any
          (fun t => strStartsWith e.fst (t ++ "_" ++ (u ++ "_" ++ esc))))) := by
  induction types with
  | nil =>
    intro s now hlive
    simp [List.filter_true]
  | cons t rest ih =>
    intro s now hlive
    simp only [List.foldl_cons]
    have hlive2 : ∀ e ∈ (invalidateCache t u esc s now).entries,
        now - e.snd.storedAt ≤ e.snd.ttl := by
      intro e he
      rw [invalidateCache_eq t u esc s now hlive] at he
      exact hlive e (List.mem_of_mem_filter he)
    rw [ih (invalidateCache t u esc s now) now hlive2,
      invalidateCache_eq t u esc s now hlive, List.filter_filter]
    apply List.filter_congr
    intro e _
    simp [List.any_cons, Bool.not_or, Bool.and_comm]

/-- C3: on a store whose entries are all live, `invalidateRelatedCache`
removes exactly the entries whose key starts with the pattern
`typeName_userId_schoolId` built for the primary type or one of the
related types, and leaves every other entry unchanged. -/
theorem invalidateRelatedCache_prefix_exact (primaryType userId escuelaId : String)
    (relatedTypes : List String) (s : Store) (now : Nat)
    (hlive : ∀ e ∈ s.entries, now - e.snd.storedAt ≤ e.snd.ttl) :
    (invalidateRelatedCache primaryType userId escuelaId relatedTypes s now).entries =
      s.entries.filter (fun e => !((primaryType :: relatedTypes).any
        (fun t => strStartsWith e.fst (t ++ "_" ++ (userId ++ "_" ++ escuelaId))))) := by
  simp only [invalidateRelatedCache]
  exact invalidate_foldl_eq userId escuelaId (primaryType :: relatedTypes) s now hlive

/-- The spec's three-key example store used by the C3 witness. -/
def invExampleStore : Store :=
  { entries := [
      (("dashboard_u1_s1_\x7b\x7d"), { value := JsValue.vObj 1, storedAt := 0, ttl := 180 }),
      (("dashboard_u1_s1_\x7b\"q\":\"x\"\x7d"), { value := JsValue.vObj 2, storedAt := 0, ttl := 180 }),
      (("dashboard_u2_s1_\x7b\x7d"), { value := JsValue.vObj 3, storedAt := 0, ttl := 180 })],
    maxKeys := 500, hits := 0, misses := 0 }

/-- Witness for C3: invalidating ("dashboard", "u1", "s1", []) on the
spec's example keys removes exactly the two u1 keys and leaves the u2
key. -/
theorem invalidateRelatedCache_prefix_exact_witness :
    (invalidateRelatedCache ("dashboard") ("u1") ("s1") [] invExampleStore 0).entries =
      [(("dashboard_u2_s1_\x7b\x7d"), { value := JsValue.vObj 3, storedAt := 0, ttl := 180 })] := by
  exact (invalidateRelatedCache_prefix_exact ("dashboard") ("u1") ("s1") [] invExampleStore 0
    (by decide)).trans (by decide)

/-! ## Key builder: character-level lemmas -/

/-- Character-list counterpart of `joinUnderscore`. -/
def joinChars : List (List Char) → List Char
  | [] => []
  | [p] => p
  | p :: ps => p ++ '_' :: joinChars ps

theorem joinUnderscore_data (ps : List String) :
    (joinUnderscore ps).data = joinChars (ps.map String.data) := by
  induction ps with
  | nil => rfl
  | cons p rest ih =>
    cases rest with
    | nil => rfl
    | cons q qs =>
      show (p ++ "_" ++ joinUnderscore (q :: qs)).data = _
      rw [String.data_append, String.data_append, ih]
      simp [joinChars]

theorem createCacheKey_data (t : String) (ps : List String) :
    (createCacheKey t ps).data = t.data ++ '_' :: joinChars (ps.map String.data) := by
  show (t ++ "_" ++ joinUnderscore ps).data = _
  rw [String.data_append, String.data_append, joinUnderscore_data]
  simp

theorem str_ne_empty_data {p : String} (h : p ≠ "") : p.data ≠ [] :=
  fun hd => h (String.ext hd)

theorem delim_cancel : ∀ (a : List Char) {b s t : List Char}, '_' ∉ a → '_' ∉ b →
    a ++ '_' :: s = b ++ '_' :: t → a = b ∧ s = t := by
  intro a
  induction a with
  | nil =>
    intro b s t _ hb h
    cases b with
    | nil =>
      rw [List.nil_append, List.nil_append] at h
      injection h with _ h2
      exact ⟨rfl, h2⟩
    | cons c bs =>
      rw [List.nil_append, List.cons_append] at h
      injection h with h1 _
      have hm : ('_' : Char) ∈ c :: bs := by
        rw [← h1]
        exact List.mem_cons_self _ _
      exact absurd hm hb
  | cons c cs ih =>
    intro b s t ha hb h
    cases b with
    | nil =>
      rw [List.nil_append, List.cons_append] at h
      injection h with h1 _
      have hm : ('_' : Char) ∈ c :: cs := by
        rw [h1]
        exact List.mem_cons_self _ _
      exact absurd hm ha
    | cons d ds =>
      rw [List.cons_append, List.cons_append] at h
      injection h with h1 h2
      have ha' : ('_' : Char) ∉ cs := fun hm => ha (List.mem_cons_of_mem c hm)
      have hb' : ('_' : Char) ∉ ds := fun hm => hb (List.mem_cons_of_mem d hm)
      obtain ⟨hab, hst⟩ := ih ha' hb' h2
      exact ⟨by rw [h1, hab], hst⟩

theorem mem_underscore_join (p : List Char) (rest : List (List Char)) (hrest : rest ≠ []) :
    ('_' : Char) ∈ joinChars (p :: rest) := by
  cases rest with
  | nil => exact absurd rfl hrest
  | cons q qs =>
    show ('_' : Char) ∈ p ++ '_' :: joinChars (q :: qs)
    exact List.mem_append_right p (List.mem_cons_self _ _)

theorem joinChars_inj : ∀ (ps qs : List (List Char)),
    (∀ p ∈ ps, '_' ∉ p ∧ p ≠ []) → (∀ q ∈ qs, '_' ∉ q ∧ q ≠ []) →
    joinChars ps = joinChars qs → ps = qs := by
  intro ps
  induction ps with
  | nil =>
    intro qs _ hq h
    cases qs with
    | nil => rfl
    | cons q qs' =>
      exfalso
      cases qs' with
      | nil =>
        have h' : ([] : List Char) = q := h
        exact (hq q (List.mem_cons_self _ _)).2 h'.symm
      | cons r rs =>
        have h' : ([] : List Char) = q ++ '_' :: joinChars (r :: rs) := h
        have := congrArg List.length h'
        simp [List.length_append] at this
        omega
  | cons p ps' ih =>
    intro qs hp hq h
    cases qs with
    | nil =>
      exfalso
      cases ps' with
      | nil =>
        have h' : p = ([] : List Char) := h
        exact (hp p (List.mem_cons_self _ _)).2 h'
      | cons r rs =>
        have h' : p ++ '_' :: joinChars (r :: rs) = ([] : List Char) := h
        have := congrArg List.length h'
        simp [List.length_append] at this
    | cons q qs' =>
      cases ps' with
      | nil =>
        cases qs' with
        | nil =>
          have h' : p = q := h
          rw [h']
        | cons r rs =>
          exfalso
          have hm : ('_' : Char) ∈ joinChars (q :: r :: rs) :=
            mem_underscore_join q (r :: rs) (by simp)
          have h' : p = joinChars (q :: r :: rs) := h
          exact (hp p (List.mem_cons_self _ _)).1 (h'.symm ▸ hm)
      | cons r rs =>
        cases qs' with
        | nil =>
          exfalso
          have hm : ('_' : Char) ∈ joinChars (p :: r :: rs) :=
            mem_underscore_join p (r :: rs) (by simp)
          have h' : joinChars (p :: r :: rs) = q := h
          exact (hq q (List.mem_cons_self _ _)).1 (h' ▸ hm)
        | cons w ws =>
          have h' : p ++ '_' :: joinChars (r :: rs) = q ++ '_' :: joinChars (w :: ws) := h
          obtain ⟨hab, hst⟩ := delim_cancel p (hp p (List.mem_cons_self _ _)).1
            (hq q (List.mem_cons_self _ _)).1 h'
          have hps : ∀ x ∈ r :: rs, ('_' : Char) ∉ x ∧ x ≠ [] :=
            fun x hx => hp x (List.mem_cons_of_mem _ hx)
          have hqs : ∀ x ∈ w :: ws, ('_' : Char) ∉ x ∧ x ≠ [] :=
            fun x hx => hq x (List.mem_cons_of_mem _ hx)
          rw [hab, ih (w :: ws) hps hqs hst]

/-! ## C5: key determinism and injectivity -/

/-- C5 counterexample: the key builder collides on distinct inputs — a
parameter containing the delimiter collides with the split parameters,
and the empty parameter list collides with a single empty parameter, so
the claimed injectivity on (typeName, params) is false. -/
theorem createCacheKey_collision :
    createCacheKey ("a") [("b_c")] = createCacheKey ("a") [("b"), ("c")] ∧
    ([("b_c")] : List String) ≠ [("b"), ("c")] ∧
    createCacheKey ("t") [] = createCacheKey ("t") [("")] ∧
    ([] : List String) ≠ [("")] := by
  exact ⟨by decide, by decide, by decide, by decide⟩

/-- C5 (amended): the key builder is deterministic (a pure function of
its arguments), and it is injective on (typeName, params) provided the
type name and every parameter are free of the underscore delimiter and
no parameter is empty; parameters containing the delimiter, or
empty-vs-absent parameters, can collide. -/
theorem createCacheKey_injective_on_clean_params (t1 t2 : String) (ps1 ps2 : List String)
    (ht1 : ('_' : Char) ∉ t1.data) (ht2 : ('_' : Char) ∉ t2.data)
    (hp1 : ∀ p ∈ ps1, ('_' : Char) ∉ p.data ∧ p ≠ "")
    (hp2 : ∀ p ∈ ps2, ('_' : Char) ∉ p.data ∧ p ≠ "")
    (h : createCacheKey t1 ps1 = createCacheKey t2 ps2) : t1 = t2 ∧ ps1 = ps2 := by
  have hd := congrArg String.data h
  rw [createCacheKey_data, createCacheKey_data] at hd
  obtain ⟨h1, h2⟩ := delim_cancel t1.data ht1 ht2 hd
  have hc1 : ∀ p ∈ ps1.map String.data, ('_' : Char) ∉ p ∧ p ≠ [] := by
    intro p hpm
    obtain ⟨q, hqm, rfl⟩ := List.mem_map.mp hpm
    exact ⟨(hp1 q hqm).1, str_ne_empty_data (hp1 q hqm).2⟩
  have hc2 : ∀ p ∈ ps2.map String.data, ('_' : Char) ∉ p ∧ p ≠ [] := by
    intro p hpm
    obtain ⟨q, hqm, rfl⟩ := List.mem_map.mp hpm
    exact ⟨(hp2 q hqm).1, str_ne_empty_data (hp2 q hqm).2⟩
  have hmap := joinChars_inj (ps1.map String.data) (ps2.map String.data) hc1 hc2 h2
  exact ⟨String.ext h1, List.map_injective_iff.mpr (fun a b hab => String.ext hab) hmap⟩

/-- Witness for the amended C5 at delimiter-free concrete inputs. -/
theorem createCacheKey_injective_on_clean_params_witness :
    ("dashboard" : String) = ("dashboard") ∧ ([("u1"), ("s1")] : List String) = [("u1"), ("s1")] := by
  exact createCacheKey_injective_on_clean_params ("dashboard") ("dashboard")
    [("u1"), ("s1")] [("u1"), ("s1")] (by decide) (by decide) (by decide) (by decide) rfl

/-! ## C8: empty parameter list -/

/-- C8 counterexample: with an empty params list the key builder yields
the type name followed by a trailing underscore, not the type name
alone. -/
theorem createCacheKey_empty_params_trailing_delim :
    createCacheKey ("dashboard") [] = ("dashboard_") ∧
    createCacheKey ("dashboard") [] ≠ ("dashboard") := by
  exact ⟨by decide, by decide⟩

/-- C8 (amended): an empty params list yields the type name followed by
a single trailing underscore; this empty-params key is still valid and
distinct per type: distinct type names give distinct empty-params
keys. -/
theorem createCacheKey_empty_params (t : String) :
    createCacheKey t [] = t ++ "_" ∧
    (∀ t2 : String, createCacheKey t [] = createCacheKey t2 [] → t = t2) := by
  constructor
  · apply String.ext
    rw [createCacheKey_data, String.data_append]
    rfl
  · intro t2 h
    have hd := congrArg String.data h
    rw [createCacheKey_data, createCacheKey_data] at hd
    exact String.ext (List.append_cancel_right hd)

/-- Witness for the amended C8 at a concrete type name. -/
theorem createCacheKey_empty_params_witness :
    createCacheKey ("anuncios") [] = ("anuncios") ++ "_" ∧ ("anuncios" : String) = ("anuncios") := by
  have h := createCacheKey_empty_params ("anuncios")
  exact ⟨h.1, h.2 ("anuncios") rfl⟩

/-! ## C6: recovering the type from the key -/

theorem firstSegChars_append (a r : List Char) (ha : ('_' : Char) ∉ a) :
    firstSegChars (a ++ '_' :: r) = a := by
  induction a with
  | nil => simp [firstSegChars]
  | cons c cs ih =>
    have hc : ¬ c = '_' := by
      intro hcc
      apply ha
      rw [← hcc]
      exact List.mem_cons_self _ _
    have ha' : ('_' : Char) ∉ cs := fun hm => ha (List.mem_cons_of_mem c hm)
    simp [firstSegChars, hc, ih ha']

/-- C6 counterexample: for the configured multi-segment type names the
first underscore-delimited segment the stats reporter extracts does not
recover the producing type: a dashboard_rol key is attributed to
"dashboard", and a promedio_periodo key is attributed to "promedio",
which is not even a configured type. -/
theorem firstSegment_multisegment_mismatch :
    firstSegment (createCacheKey ("dashboard_rol") [("u1"), ("s1")]) = ("dashboard") ∧
    firstSegment (createCacheKey ("dashboard_rol") [("u1"), ("s1")]) ≠ ("dashboard_rol") ∧
    (lookupA cacheConfig ("dashboard_rol")).isSome = true ∧
    firstSegment (createCacheKey ("promedio_periodo") [("e1")]) = ("promedio") ∧
    (lookupA cacheConfig ("promedio")).isSome = false := by
  exact ⟨by decide, by decide, by decide, by decide, by decide⟩

/-- C6 (amended): for a type name free of the underscore delimiter, the
first underscore-delimited segment of any key it produces recovers the
type name exactly (and hence maps to the same configured-or-default TTL
policy); for multi-segment configured names such as dashboard_rol and
promedio_periodo the stats reporter extracts only the portion before the
first underscore, so the producing type is not recoverable for them. -/
theorem firstSegment_recovers_single_segment_type (t : String) (ps : List String)
    (h : ('_' : Char) ∉ t.data) :
    firstSegment (createCacheKey t ps) = t ∧
    configTtl (firstSegment (createCacheKey t ps)) = configTtl t := by
  have hseg : firstSegment (createCacheKey t ps) = t := by
    unfold firstSegment
    rw [createCacheKey_data, firstSegChars_append t.data _ h]
  exact ⟨hseg, by rw [hseg]⟩

/-- Witness for the amended C6 at a concrete single-segment type. -/
theorem firstSegment_recovers_single_segment_type_witness :
    firstSegment (createCacheKey ("dashboard") [("u1"), ("s1")]) = ("dashboard") := by
  exact (firstSegment_recovers_single_segment_type ("dashboard") [("u1"), ("s1")] (by decide)).1

/-! ## C7: hit rate and division by zero -/

/-- C7 counterexample: with both cumulative counters zero, getCacheStats
divides zero by zero; the JavaScript result is NaN (modelled as `none`),
not the claimed 0. -/
theorem hitRate_zero_counts_not_zero :
    (getCacheStats (emptyStore 500) 0).hitRate = none ∧
    (getCacheStats (emptyStore 500) 0).hitRate ≠ some 0 := by
  have h : (getCacheStats (emptyStore 500) 0).hitRate = none := by
    simp [getCacheStats, jsDiv, emptyStore]
  refine ⟨h, ?_⟩
  rw [h]
  simp

/-- C7 (amended): getCacheStats reports the hit rate as
`hits / (hits + misses) * 100`; when both counters are zero the
expression is a JavaScript 0/0 and the reported rate is NaN (modelled as
`none`), not 0 — the source has no zero guard; with at least one get
recorded the formula value is reported. -/
theorem getCacheStats_hitRate_formula (s : Store) (now : Nat) :
    (s.hits = 0 ∧ s.misses = 0 → (getCacheStats s now).hitRate = none) ∧
    (0 < s.hits + s.misses → (getCacheStats s now).hitRate =
      some (((s.hits : ℚ) / ((s.hits : ℚ) + (s.misses : ℚ))) * 100)) := by
  constructor
  · rintro ⟨h1, h2⟩
    simp [getCacheStats, jsDiv, h1, h2]
  · intro h
    have hden : ((s.hits : ℚ) + (s.misses : ℚ)) ≠ 0 := by
      have hne : ((s.hits + s.misses : ℕ) : ℚ) ≠ 0 :=
        Nat.cast_ne_zero.mpr (Nat.pos_iff_ne_zero.mp h)
      simpa [Nat.cast_add] using hne
    simp [getCacheStats, jsDiv, hden]

/-- The store with one recorded hit and one recorded miss used by the C7
witness. -/
def statsStore : Store := { entries := [], maxKeys := 500, hits := 1, misses := 1 }

/-- Witness for the amended C7: one hit and one miss give a 50 percent
hit rate. -/
theorem getCacheStats_hitRate_formula_witness :
    (getCacheStats statsStore 0).hitRate = some 50 := by
  have h := (getCacheStats_hitRate_formula statsStore 0).2 (by decide)
  rw [h]
  norm_num [statsStore]

end EducaCache
